import Mathlib

/-!
Verification of the core logic of smart_app.py, a console travel-assistant
demo. The Python source is shallowly embedded: the provider/booking store is
an explicit state record, Python floats are modelled as exact rationals,
wall-clock timestamps as natural numbers of seconds, and persistence as a
snapshot field of the state. Functions with effects (uuid generation, the
current time, the optional external language detector) receive those values
as explicit parameters.
-/

/- The Batteries rational-number operations are marked irreducible, which
blocks elaborator-side evaluation of concrete rational arithmetic; restore
default reducibility inside this file so that concrete runs of the embedded
code can be checked by decide. -/
attribute [local semireducible] Rat.add Rat.mul Rat.sub Rat.inv Rat.ofScientific

namespace SmartApp

/-! ## Text utilities (normalize_text and friends) -/

/-- Whitespace characters recognised by the embedding of str.strip and
str.split: space, tab, newline, carriage return, vertical tab, form feed. -/
def pyIsSpace (c : Char) : Bool :=
  c == ' ' || c == '\t' || c == '\n' || c == '\r' || c == Char.ofNat 11 || c == Char.ofNat 12

def pyStripList (cs : List Char) : List Char :=
  ((cs.dropWhile pyIsSpace).reverse.dropWhile pyIsSpace).reverse

/-- Embedding of Python str.strip with no arguments. -/
def pyStrip (s : String) : String := String.mk (pyStripList s.data)

/-- Embedding of Python str.lower (ASCII range, which covers all inputs
appearing in the program's tables). -/
def pyLower (s : String) : String := String.mk (s.data.map Char.toLower)

/-- The characters of Python's string.punctuation. -/
def punctuationChars : List Char :=
  ['!', Char.ofNat 34, '#', '$', '%', '&', Char.ofNat 39, '(', ')', '*', '+', ',', '-', '.',
   '/', ':', ';', '<', '=', '>', '?', '@', '[', '\\', ']', '^', '_', Char.ofNat 96,
   Char.ofNat 123, '|', Char.ofNat 125, '~']

/-- Embedding of s.translate(str.maketrans("", "", string.punctuation)). -/
def removePunct (cs : List Char) : List Char :=
  cs.filter (fun c => !(punctuationChars.contains c))

/-- Embedding of Python str.split with no arguments: split on runs of
whitespace, discarding empty pieces. -/
def splitWSAux : List Char → List Char → List (List Char)
  | [], acc => if acc.isEmpty then [] else [acc.reverse]
  | c :: cs, acc =>
    if pyIsSpace c then
      if acc.isEmpty then splitWSAux cs [] else acc.reverse :: splitWSAux cs []
    else splitWSAux cs (c :: acc)

/-- Embedding of " ".join(words). -/
def joinWithSpace : List (List Char) → List Char
  | [] => []
  | [w] => w
  | w :: ws => w ++ ' ' :: joinWithSpace ws

/-- normalize_text from the source: strip, lowercase, delete punctuation,
collapse whitespace runs to single spaces. -/
def normalize_text (s : String) : String :=
  String.mk (joinWithSpace (splitWSAux (removePunct (pyLower (pyStrip s)).data) []))

/-- Helper for the embedding of Python str.title: a letter starts upper-cased
exactly when the previous character was not a letter. -/
def titleAux : Bool → List Char → List Char
  | _, [] => []
  | prevAlpha, c :: cs =>
    (if c.isAlpha then (if prevAlpha then c.toLower else c.toUpper) else c) :: titleAux c.isAlpha cs

/-- Embedding of Python str.title (ASCII range). -/
def pyTitle (s : String) : String := String.mk (titleAux false s.data)

/-- First-match association-list lookup, the embedding of reading a Python
dict built from literal entries. -/
def lookupBy {α β : Type} [DecidableEq α] (m : List (α × β)) (k : α) : Option β :=
  match m with
  | [] => none
  | (a, v) :: rest => if a = k then some v else lookupBy rest k

/-- Does the second list start with the first one? -/
def startsWith : List Char → List Char → Bool
  | [], _ => true
  | _ :: _, [] => false
  | a :: as, b :: bs => a == b && startsWith as bs

/-- Does needle occur contiguously inside hay? -/
def containsSeq (needle : List Char) : List Char → Bool
  | [] => needle.isEmpty
  | c :: cs => startsWith needle (c :: cs) || containsSeq needle cs

/-- Embedding of Python's substring test needle in hay. -/
def containsSub (needle hay : String) : Bool := containsSeq needle.data hay.data

/-! ## Data model -/

structure Review where
  rating : ℚ
  comment : String
  ts : Nat
deriving DecidableEq

structure Location where
  lat : ℚ
  lng : ℚ
deriving DecidableEq

structure Provider where
  id : String
  name : String
  service : String
  language : String
  rating : ℚ
  reviews : List Review
  available : Bool
  next_available : Option Nat
  location : Option Location
deriving DecidableEq

structure Booking where
  id : String
  tourist : String
  provider_id : String
  provider_name : String
  service : String
  language : String
  phone : Option String
  status : String
  created_at : Nat
  history : List (Nat × String)
deriving DecidableEq

/-- The in-memory lists together with the persisted file snapshots. save_json
over a list is modelled by overwriting the corresponding File field. -/
structure AppState where
  providers : List Provider
  bookings : List Booking
  providersFile : List Provider
  bookingsFile : List Booking
deriving DecidableEq

def pr1 : Provider :=
  { id := "p1", name := "Ravi", service := "Taxi Driver", language := "Telugu", rating := 4.8,
    reviews := [], available := true, next_available := none,
    location := some { lat := 17.45, lng := 78.45 } }

def pr2 : Provider :=
  { id := "p2", name := "Maria", service := "Tour Guide", language := "French", rating := 4.9,
    reviews := [], available := true, next_available := none,
    location := some { lat := 48.85, lng := 2.35 } }

def pr3 : Provider :=
  { id := "p3", name := "Carlos", service := "City Tour", language := "Spanish", rating := 4.7,
    reviews := [], available := true, next_available := none,
    location := some { lat := 19.43, lng := -99.13 } }

def default_providers : List Provider := [pr1, pr2, pr3]

/-- The state after first start: no persisted files existed, so both loads
fall back to their defaults, and the startup code saves them. -/
def initialState : AppState :=
  { providers := default_providers, bookings := [],
    providersFile := default_providers, bookingsFile := [] }

/-! ## Rounding (Python round(x, 2)) -/

/-- Round-half-to-even to an integer, Python's rounding mode. -/
def roundHalfEven (q : ℚ) : ℤ :=
  let f := ⌊q⌋
  let r := q - (f : ℚ)
  if r < 1 / 2 then f
  else if 1 / 2 < r then f + 1
  else if f % 2 = 0 then f else f + 1

/-- Embedding of Python round(q, 2). -/
def round2 (q : ℚ) : ℚ := ((roundHalfEven (q * 100) : ℚ)) / 100

/-! ## Booking, availability and review operations -/

/-- Embedding of create_booking. The fresh uuid prefix and the current UTC
time are passed in as parameters newId and now. -/
def create_booking (s : AppState) (tourist : String) (provider : Provider)
    (language : Option String) (phone : Option String) (newId : String) (now : Nat) :
    AppState × Booking :=
  let booking : Booking :=
    { id := newId, tourist := tourist, provider_id := provider.id,
      provider_name := provider.name, service := provider.service,
      language := match language with
        | some l => if l = "" then provider.language else l
        | none => provider.language,
      phone := phone, status := "Confirmed", created_at := now,
      history := [(now, "Confirmed")] }
  ({ s with bookings := s.bookings ++ [booking], bookingsFile := s.bookings ++ [booking] },
   booking)

/-- The for-loop of update_provider_availability: update the first provider
whose id matches and stop; none when no id matches. -/
def updateList (provider_id : String) (available : Bool) (next_available : Option Nat) :
    List Provider → Option (List Provider)
  | [] => none
  | p :: rest =>
    if p.id = provider_id then
      some ({ p with available := available, next_available := next_available } :: rest)
    else
      match updateList provider_id available next_available rest with
      | none => none
      | some rest' => some (p :: rest')

/-- Embedding of update_provider_availability: mutate the first matching
provider in place, persist, and return true; return false when absent. -/
def update_provider_availability (s : AppState) (provider_id : String) (available : Bool)
    (next_available : Option Nat) : AppState × Bool :=
  match updateList provider_id available next_available s.providers with
  | none => (s, false)
  | some ps' => ({ s with providers := ps', providersFile := ps' }, true)

/-- The provider mutation performed inside the add_review loop: append the
review, then set the rating to the two-decimal-rounded mean of all reviews. -/
def reviewedProvider (p : Provider) (rating : ℚ) (comment : String) (ts : Nat) : Provider :=
  let reviews' := p.reviews ++ [{ rating := rating, comment := comment, ts := ts }]
  { p with reviews := reviews',
           rating := round2 ((reviews'.map Review.rating).sum / (reviews'.length : ℚ)) }

/-- The for-loop of add_review: append the review to the first provider whose
id matches, recompute its mean rating rounded to two decimals, and stop. -/
def addReviewList (provider_id : String) (rating : ℚ) (comment : String) (ts : Nat) :
    List Provider → Option (List Provider × ℚ)
  | [] => none
  | p :: rest =>
    if p.id = provider_id then
      some (reviewedProvider p rating comment ts :: rest,
        (reviewedProvider p rating comment ts).rating)
    else
      match addReviewList provider_id rating comment ts rest with
      | none => none
      | some (rest', v) => some (p :: rest', v)

/-- Embedding of add_review. The review timestamp is passed in as ts. -/
def add_review (s : AppState) (provider_id : String) (rating : ℚ) (comment : String)
    (ts : Nat) : AppState × Option ℚ :=
  match addReviewList provider_id rating comment ts s.providers with
  | none => (s, none)
  | some (ps', v) => ({ s with providers := ps', providersFile := ps' }, some v)

/-- Embedding of the availability-toggle branch of admin_menu: flip the
selected provider's flag, and when it becomes unavailable schedule
next_available at the current time plus one hour (3600 seconds). -/
def adminToggleAvailability (s : AppState) (idx : Nat) (now : Nat) : AppState :=
  match s.providers[idx]? with
  | none => s
  | some p =>
    let new_avail := !p.available
    let next_av := if !new_avail then some (now + 3600) else none
    (update_provider_availability s p.id new_avail next_av).1

/-! ## Stable sort

Python's list.sort is a stable sort; it is modelled by a stable insertion
sort: identical specification (sorted by the comparison, ties keep encounter
order), structural recursion. -/

def insertS {α : Type} (le : α → α → Bool) (x : α) : List α → List α
  | [] => [x]
  | y :: ys => if le x y then x :: y :: ys else y :: insertS le x ys

def sortS {α : Type} (le : α → α → Bool) : List α → List α
  | [] => []
  | x :: xs => insertS le x (sortS le xs)

/-! ## difflib (SequenceMatcher and get_close_matches)

The inputs reaching this code are far below the autojunk threshold of 200
characters and no isjunk predicate is ever supplied, so the bjunk set is
empty; the two junk-only extension loops of find_longest_match are therefore
dead for every call modelled here and are omitted. -/

/-- All positions of c in b, ascending: the b2j table of SequenceMatcher. -/
def b2jIndices (b : List Char) (c : Char) : List Nat :=
  (List.range b.length).filter (fun j => decide (b[j]? = some c))

def lookupNat (m : List (Nat × Nat)) (k : Nat) : Nat :=
  match lookupBy m k with
  | some v => v
  | none => 0

/-- One row of the find_longest_match loop: fold over the match positions js
of a i, building the new j2len table and updating the best block.
A triple (besti, bestj, bestsize) is threaded through. -/
def flmRow (j2len : List (Nat × Nat)) (i : Nat) (js : List Nat)
    (best : Nat × Nat × Nat) : List (Nat × Nat) × (Nat × Nat × Nat) :=
  js.foldl (fun acc j =>
    let k := (if j = 0 then 0 else lookupNat j2len (j - 1)) + 1
    let best' := if acc.2.2.2 < k then (i + 1 - k, j + 1 - k, k) else acc.2
    ((j, k) :: acc.1, best')) ([], best)

def findLongestMatchCore (a b : List Char) (alo ahi blo bhi : Nat) : Nat × Nat × Nat :=
  ((List.range' alo (ahi - alo)).foldl (fun acc i =>
    match a[i]? with
    | none => ([], acc.2)
    | some c =>
      let js := (b2jIndices b c).filter (fun j => decide (blo ≤ j) && decide (j < bhi))
      flmRow acc.1 i js acc.2) ([], (alo, blo, 0))).2

def charAtEq (a b : List Char) (i j : Nat) : Bool :=
  match a[i]?, b[j]? with
  | some x, some y => x == y
  | _, _ => false

/-- The leftward extension loop of find_longest_match (the bjunk set is
empty, so the not-junk guard is vacuous). Fuel bounds the iteration count;
besti decreases each step, so besti itself is sufficient fuel. -/
def extendLeft (a b : List Char) (alo blo : Nat) : Nat → Nat × Nat × Nat → Nat × Nat × Nat
  | 0, best => best
  | fuel + 1, (besti, bestj, bestsize) =>
    if decide (alo < besti) && decide (blo < bestj) && charAtEq a b (besti - 1) (bestj - 1) then
      extendLeft a b alo blo fuel (besti - 1, bestj - 1, bestsize + 1)
    else (besti, bestj, bestsize)

/-- The rightward extension loop; bestsize increases while
besti + bestsize < ahi, so ahi is sufficient fuel. -/
def extendRight (a b : List Char) (ahi bhi : Nat) : Nat → Nat × Nat × Nat → Nat × Nat × Nat
  | 0, best => best
  | fuel + 1, (besti, bestj, bestsize) =>
    if decide (besti + bestsize < ahi) && decide (bestj + bestsize < bhi) &&
        charAtEq a b (besti + bestsize) (bestj + bestsize) then
      extendRight a b ahi bhi fuel (besti, bestj, bestsize + 1)
    else (besti, bestj, bestsize)

def find_longest_match (a b : List Char) (alo ahi blo bhi : Nat) : Nat × Nat × Nat :=
  let best := findLongestMatchCore a b alo ahi blo bhi
  let best := extendLeft a b alo blo best.1 best
  extendRight a b ahi bhi ahi best

/-- Total size of all matching blocks of get_matching_blocks: recurse on both
sides of the longest match. Fuel bounds the recursion; the window sizes
shrink at every recursive call, so (ahi - alo) + (bhi - blo) + 1 is
sufficient fuel. -/
def matchingBlocksSum (a b : List Char) : Nat → Nat → Nat → Nat → Nat → Nat
  | 0, _, _, _, _ => 0
  | fuel + 1, alo, ahi, blo, bhi =>
    let m := find_longest_match a b alo ahi blo bhi
    if m.2.2 = 0 then 0
    else
      m.2.2 + matchingBlocksSum a b fuel alo m.1 blo m.2.1 +
        matchingBlocksSum a b fuel (m.1 + m.2.2) ahi (m.2.1 + m.2.2) bhi

def totalMatches (a b : List Char) : Nat :=
  matchingBlocksSum a b (a.length + b.length + 1) 0 a.length 0 b.length

/-- difflib._calculate_ratio. -/
def calcRatioOf (matched length : Nat) : ℚ :=
  if length ≠ 0 then 2 * (matched : ℚ) / (length : ℚ) else 1

/-- SequenceMatcher.ratio() with a the first sequence and b the second. -/
def ratioOf (a b : String) : ℚ :=
  calcRatioOf (totalMatches a.data b.data) (a.data.length + b.data.length)

/-- The loop of SequenceMatcher.quick_ratio(): count, over the elements of a,
how many can still be matched against the multiset of elements of b. -/
def quickRatioAux (b : List Char) : List Char → List (Char × Int) → Nat → Nat
  | [], _, matched => matched
  | c :: rest, avail, matched =>
    let numb : Int :=
      match lookupBy avail c with
      | some v => v
      | none => (b.count c : Int)
    quickRatioAux b rest ((c, numb - 1) :: avail) (if 0 < numb then matched + 1 else matched)

def quickRatioOf (a b : String) : ℚ :=
  calcRatioOf (quickRatioAux b.data a.data [] 0) (a.data.length + b.data.length)

def realQuickRatioOf (a b : String) : ℚ :=
  calcRatioOf (min a.data.length b.data.length) (a.data.length + b.data.length)

/-- Python tuple comparison on (score, string) pairs, as used by
heapq.nlargest on the (ratio, word) pairs of get_close_matches. -/
def tupleLtB (a b : ℚ × String) : Bool :=
  decide (a.1 < b.1) || (decide (a.1 = b.1) && decide (a.2 < b.2))

/-- heapq.nlargest n, documented as sorted(iterable, reverse=True)[:n]. -/
def nlargestPairs (n : Nat) (l : List (ℚ × String)) : List (ℚ × String) :=
  (sortS (fun a b => !(tupleLtB a b)) l).take n

/-- difflib.get_close_matches: keep the possibilities whose ratio against
word clears the cutoff (guarded by the two cheap upper bounds as in the
source), then return the n best. For each possibility x the matcher runs
with a = x and b = word. -/
def get_close_matches (word : String) (possibilities : List String) (n : Nat)
    (cutoff : ℚ) : List String :=
  let result := possibilities.filterMap (fun x =>
    if realQuickRatioOf x word ≥ cutoff ∧ quickRatioOf x word ≥ cutoff ∧ ratioOf x word ≥ cutoff
    then some (ratioOf x word, x) else none)
  (nlargestPairs n result).map (fun r => r.2)

/-! ## Phrasebook, translation and language detection -/

def phrasebook : List (String × List (String × String)) :=
  [("hello", [("French", "Bonjour"), ("Spanish", "Hola"), ("Telugu", "Namaskaram")]),
   ("thank you", [("French", "Merci"), ("Spanish", "Gracias"), ("Telugu", "Dhanyavadalu")]),
   ("how much", [("French", "Combien"), ("Spanish", "Cu√°nto"), ("Telugu", "Enta")]),
   ("where is", [("French", "O√π est"), ("Spanish", "D√≥nde est√°"), ("Telugu", "Ekkada undi")]),
   ("i need a taxi",
    [("French", "J\x27ai besoin d\x27un taxi"), ("Spanish", "Necesito un taxi"),
     ("Telugu", "Naku taxi kavali")])]

def phrasebookKeys : List String := phrasebook.map (fun kv => kv.1)

/-- phrasebook.get(key, the empty dict). -/
def phrasebookGetD (k : String) : List (String × String) :=
  match lookupBy phrasebook k with
  | some t => t
  | none => []

/-- fuzzy_match_phrase from the source: best close match among the
phrasebook keys at cutoff 0.6, or nothing. -/
def fuzzy_match_phrase (phrase : String) : Option String :=
  (get_close_matches (normalize_text phrase) phrasebookKeys 1 (3 / 5)).head?

/-- translate_phrase from the source: resolve the phrase fuzzily, then look
the title-cased target language up in the matched key's translation table. -/
def translate_phrase (phrase target_lang : String) : Option String × Option String :=
  match fuzzy_match_phrase phrase with
  | none => (none, none)
  | some key =>
    let translations := phrasebookGetD key
    let lang := pyTitle (pyStrip target_lang)
    match lookupBy translations lang with
    | some t => (some t, some key)
    | none => (none, some key)

/-- The code-to-label dict of detect_language. -/
def mapLangCode (code : String) : Option String :=
  if code = "fr" then some "French"
  else if code = "es" then some "Spanish"
  else if code = "te" then some "Telugu"
  else if code = "en" then some "English"
  else none

def frenchMarkers : List String := ["bonjour", "merci", "o√π", "combien"]

def spanishMarkers : List String := ["hola", "gracias", "d√≥nde", "cu√°nto"]

def teluguMarkers : List String := ["namaskaram", "dhanyavadalu", "enta", "ekkada"]

/-- detect_language from the source. The optional langdetect dependency is
modelled by a flag plus a detector function whose exceptions are an Except
error value. None stands for the unknown result. -/
def detect_language (langdetectAvailable : Bool) (detector : String → Except Unit String)
    (text : String) : Option String :=
  let text := pyStrip text
  if text = "" then none
  else if langdetectAvailable then
    match detector text with
    | Except.ok code => mapLangCode code
    | Except.error _ => none
  else
    let t := pyLower text
    if frenchMarkers.any (fun w => containsSub w t) then some "French"
    else if spanishMarkers.any (fun w => containsSub w t) then some "Spanish"
    else if teluguMarkers.any (fun w => containsSub w t) then some "Telugu"
    else none

/-! ## Provider matching and scoring -/

/-- The preferred-language normalisation at the top of match_providers:
(preferred_language or "").strip().title() if preferred_language else None.
A falsy (empty) argument yields None. -/
def normLang (preferred_language : Option String) : Option String :=
  match preferred_language with
  | none => none
  | some s => if s = "" then none else some (pyTitle (pyStrip s))

/-- The bonus guard of match_providers: lang is truthy and the provider's
stripped, title-cased language equals it. -/
def langBonusApplies (lang : Option String) (p : Provider) : Bool :=
  match lang with
  | none => false
  | some l => !(l == "") && (pyTitle (pyStrip p.language) == l)

/-- Python's two-argument min on rationals, kept executable by elementary
case split. -/
def pyMin (a b : ℚ) : ℚ := if b < a then b else a

/-- The score assigned to a candidate by match_providers: rating, plus 100
for a language match, plus min(0.1 per review, 1.0) when reviews exist. -/
def codeScore (lang : Option String) (p : Provider) : ℚ :=
  let score := p.rating
  let score := if langBonusApplies lang p then score + 100 else score
  if p.reviews.isEmpty then score else score + pyMin ((p.reviews.length : ℚ) * (1 / 10)) 1

/-- The two filters of match_providers: optional case-insensitive service
substring, then availability when required. -/
def filterCandidates (ps : List Provider) (service_filter : Option String)
    (only_available : Bool) : List Provider :=
  let candidates := ps.filter (fun p =>
    match service_filter with
    | none => true
    | some sf => containsSub (pyLower sf) (pyLower p.service))
  if only_available then candidates.filter (fun p => p.available) else candidates

/-- Comparison used for the descending stable sort of the scored pairs. -/
def scoreLe (a b : ℚ × Provider) : Bool := decide (b.1 ≤ a.1)

/-- match_providers from the source: filter, score, stable-sort descending by
score, return the providers. -/
def match_providers (ps : List Provider) (preferred_language : Option String)
    (service_filter : Option String) (only_available : Bool) : List Provider :=
  let lang := normLang preferred_language
  let scored := (filterCandidates ps service_filter only_available).map
    (fun p => (codeScore lang p, p))
  (sortS scoreLe scored).map (fun x => x.2)

/-- Modelled from the spec: the scoring formula exactly as the claim states
it, with the 100-point bonus added whenever the normalised languages are
equal. Compared against codeScore. -/
def claimScore (pl : Option String) (p : Provider) : ℚ :=
  p.rating
  + (match pl with
     | none => 0
     | some l => if pyTitle (pyStrip p.language) = pyTitle (pyStrip l) then 100 else 0)
  + (if 1 ≤ p.reviews.length then pyMin ((p.reviews.length : ℚ) * (1 / 10)) 1 else 0)

/-- The amended scoring formula: the bonus additionally requires the
normalised preferred language to be non-empty. -/
def amendedScore (pl : Option String) (p : Provider) : ℚ :=
  p.rating
  + (match pl with
     | none => 0
     | some l =>
       if pyTitle (pyStrip l) ≠ "" ∧ pyTitle (pyStrip p.language) = pyTitle (pyStrip l)
       then 100 else 0)
  + (if 1 ≤ p.reviews.length then pyMin ((p.reviews.length : ℚ) * (1 / 10)) 1 else 0)

/-- Every occurrence of x in l comes strictly before every occurrence of y. -/
def precedesIn {α : Type} (l : List α) (x y : α) : Prop :=
  ∀ i, i < l.length → ∀ j, j < l.length → l[i]? = some x → l[j]? = some y → i < j

instance {α : Type} [DecidableEq α] (l : List α) (x y : α) : Decidable (precedesIn l x y) :=
  inferInstanceAs (Decidable
    (∀ i, i < l.length → ∀ j, j < l.length → l[i]? = some x → l[j]? = some y → i < j))

/-! ## JSON storage model

The persisted file is modelled at the level of the parsed JSON document: a
file is Option Json, none standing for a missing (or unreadable) file.
save_json overwrites the whole document; load_json returns the document or
the default. -/

inductive Json where
  | null : Json
  | bool : Bool → Json
  | num : ℚ → Json
  | str : String → Json
  | arr : List Json → Json
  | obj : List (String × Json) → Json

def save_json (_file : Option Json) (data : Json) : Option Json := some data

def load_json (file : Option Json) (default : Json) : Json :=
  match file with
  | some j => j
  | none => default

def reviewToJson (r : Review) : Json :=
  Json.obj [("rating", Json.num r.rating), ("comment", Json.str r.comment),
            ("ts", Json.num r.ts)]

def providerToJson (p : Provider) : Json :=
  Json.obj [("id", Json.str p.id), ("name", Json.str p.name),
            ("service", Json.str p.service), ("language", Json.str p.language),
            ("rating", Json.num p.rating),
            ("reviews", Json.arr (p.reviews.map reviewToJson)),
            ("available", Json.bool p.available),
            ("next_available",
             match p.next_available with
             | none => Json.null
             | some t => Json.num t),
            ("location",
             match p.location with
             | none => Json.null
             | some loc => Json.obj [("lat", Json.num loc.lat), ("lng", Json.num loc.lng)])]

def providersToJson (ps : List Provider) : Json := Json.arr (ps.map providerToJson)

/-- Dict field access on a loaded JSON object. -/
def jGet (j : Json) (k : String) : Option Json :=
  match j with
  | Json.obj fields => lookupBy fields k
  | _ => none

def asStr : Option Json → Option String
  | some (Json.str s) => some s
  | _ => none

def asNum : Option Json → Option ℚ
  | some (Json.num q) => some q
  | _ => none

def asBool : Option Json → Option Bool
  | some (Json.bool b) => some b
  | _ => none

/-- The fields the round-trip property talks about, read off a loaded
provider object the way the code reads them: id, name, rating, available. -/
def providerFields (j : Json) : Option (String × String × ℚ × Bool) :=
  match asStr (jGet j "id"), asStr (jGet j "name"),
      asNum (jGet j "rating"), asBool (jGet j "available") with
  | some i, some n, some r, some a => some (i, n, r, a)
  | _, _, _, _ => none

def decodeFieldsList : List Json → Option (List (String × String × ℚ × Bool))
  | [] => some []
  | j :: js =>
    match providerFields j, decodeFieldsList js with
    | some f, some fs => some (f :: fs)
    | _, _ => none

def decodeProviders (j : Json) : Option (List (String × String × ℚ × Bool)) :=
  match j with
  | Json.arr xs => decodeFieldsList xs
  | _ => none

/-! ## Concrete providers used in counterexamples and witnesses -/

def pBlankLang : Provider :=
  { id := "a", name := "A", service := "svc", language := "", rating := 0, reviews := [],
    available := true, next_available := none, location := none }

def pFrenchTop : Provider :=
  { id := "b", name := "B", service := "svc", language := "French", rating := 5, reviews := [],
    available := true, next_available := none, location := none }

def pFrenchLow : Provider :=
  { id := "c", name := "C", service := "svc", language := "French", rating := 0, reviews := [],
    available := true, next_available := none, location := none }

def pSpanishHigh : Provider :=
  { id := "d", name := "D", service := "svc", language := "Spanish", rating := 5, reviews := [],
    available := true, next_available := none, location := none }

def pSpanishLow : Provider :=
  { id := "e", name := "E", service := "svc", language := "Spanish", rating := 0, reviews := [],
    available := true, next_available := none, location := none }

/-! ## Stable-sort lemmas -/

theorem insertS_perm {α : Type} (le : α → α → Bool) (x : α) (l : List α) :
    (insertS le x l).Perm (x :: l) := by
  induction l with
  | nil => exact List.Perm.refl _
  | cons y ys ih =>
    by_cases h : le x y = true
    · simp [insertS, h]
    · simp only [insertS, h, if_false, Bool.false_eq_true]
      exact (ih.cons y).trans (List.Perm.swap x y ys)

theorem sortS_perm {α : Type} (le : α → α → Bool) (l : List α) : (sortS le l).Perm l := by
  induction l with
  | nil => exact List.Perm.refl _
  | cons x xs ih => exact (insertS_perm le x (sortS le xs)).trans (ih.cons x)

theorem insertS_pairwise {α : Type} {le : α → α → Bool}
    (htrans : ∀ a b c, le a b = true → le b c = true → le a c = true)
    (htotal : ∀ a b, le a b = true ∨ le b a = true) (x : α) {l : List α}
    (hl : l.Pairwise (fun a b => le a b = true)) :
    (insertS le x l).Pairwise (fun a b => le a b = true) := by
  induction l with
  | nil => simp [insertS]
  | cons y ys ih =>
    rcases List.pairwise_cons.mp hl with ⟨hy, hys⟩
    by_cases h : le x y = true
    · simp only [insertS, h, if_true]
      refine List.pairwise_cons.mpr ⟨?_, hl⟩
      intro z hz
      rcases List.mem_cons.mp hz with rfl | hz
      · exact h
      · exact htrans x y z h (hy z hz)
    · simp only [insertS, h, if_false, Bool.false_eq_true]
      refine List.pairwise_cons.mpr ⟨?_, ih hys⟩
      intro z hz
      have hz' : z ∈ x :: ys := (insertS_perm le x ys).mem_iff.mp hz
      rcases List.mem_cons.mp hz' with rfl | hz'
      · rcases htotal z y with hzy | hyz
        · exact absurd hzy h
        · exact hyz
      · exact hy z hz'

theorem sortS_pairwise {α : Type} {le : α → α → Bool}
    (htrans : ∀ a b c, le a b = true → le b c = true → le a c = true)
    (htotal : ∀ a b, le a b = true ∨ le b a = true) (l : List α) :
    (sortS le l).Pairwise (fun a b => le a b = true) := by
  induction l with
  | nil => simp [sortS]
  | cons x xs ih => exact insertS_pairwise htrans htotal x ih

theorem sublist_insertS {α : Type} (le : α → α → Bool) (x : α) (l : List α) :
    l.Sublist (insertS le x l) := by
  induction l with
  | nil => exact List.nil_sublist _
  | cons y ys ih =>
    by_cases h : le x y = true
    · simp only [insertS, h, if_true]
      exact List.sublist_cons_self x (y :: ys)
    · simp only [insertS, h, if_false, Bool.false_eq_true]
      exact ih.cons₂ y

theorem insertS_decomp {α : Type} (le : α → α → Bool) (x : α) (l : List α) :
    ∃ l₁ l₂, l = l₁ ++ l₂ ∧ insertS le x l = l₁ ++ x :: l₂ ∧ ∀ y ∈ l₁, le x y = false := by
  induction l with
  | nil => exact ⟨[], [], rfl, rfl, by simp⟩
  | cons y ys ih =>
    by_cases h : le x y = true
    · exact ⟨[], y :: ys, rfl, by simp [insertS, h], by simp⟩
    · rcases ih with ⟨l₁, l₂, hsplit, hins, hfalse⟩
      refine ⟨y :: l₁, l₂, by simp [hsplit], ?_, ?_⟩
      · simp only [insertS, h, if_false, Bool.false_eq_true, hins, List.cons_append]
      · intro z hz
        rcases List.mem_cons.mp hz with rfl | hz
        · exact Bool.not_eq_true _ ▸ (by simpa using h)
        · exact hfalse z hz

theorem pair_sublist_sortS {α : Type} (le : α → α → Bool) {a b : α} :
    ∀ {l : List α}, [a, b].Sublist l → le a b = true → [a, b].Sublist (sortS le l)
  | x :: xs, h, hab => by
    cases h with
    | cons _ h' =>
      exact (pair_sublist_sortS le h' hab).trans (sublist_insertS le x (sortS le xs))
    | cons₂ _ h' =>
      rcases insertS_decomp le a (sortS le xs) with ⟨l₁, l₂, hsplit, hins, hfalse⟩
      have hb : b ∈ sortS le xs :=
        (sortS_perm le xs).mem_iff.mpr (List.singleton_sublist.mp h')
      rw [hsplit] at hb
      rcases List.mem_append.mp hb with hb₁ | hb₂
      · exact absurd hab (by simp [hfalse b hb₁])
      · have h1 : [a, b].Sublist (a :: l₂) := (List.singleton_sublist.mpr hb₂).cons₂ a
        have h2 : (a :: l₂).Sublist (l₁ ++ a :: l₂) := List.sublist_append_right l₁ (a :: l₂)
        show [a, b].Sublist (insertS le a (sortS le xs))
        rw [hins]
        exact h1.trans h2

/-! ## match_providers helper lemmas -/

theorem scoreLe_trans (a b c : ℚ × Provider) (hab : scoreLe a b = true)
    (hbc : scoreLe b c = true) : scoreLe a c = true := by
  simp only [scoreLe, decide_eq_true_eq] at *
  exact le_trans hbc hab

theorem scoreLe_total (a b : ℚ × Provider) : scoreLe a b = true ∨ scoreLe b a = true := by
  simp only [scoreLe, decide_eq_true_eq]
  exact le_total b.1 a.1

theorem map_snd_scored (pl : Option String) (cands : List Provider) :
    (cands.map (fun p => (codeScore (normLang pl) p, p))).map (fun x : ℚ × Provider => x.2)
      = cands := by
  induction cands with
  | nil => rfl
  | cons c cs ih => simp only [List.map_cons, ih]

theorem match_providers_perm (ps : List Provider) (pl sf : Option String) (oa : Bool) :
    (match_providers ps pl sf oa).Perm (filterCandidates ps sf oa) := by
  have h1 := (sortS_perm scoreLe ((filterCandidates ps sf oa).map
    (fun p => (codeScore (normLang pl) p, p)))).map (fun x : ℚ × Provider => x.2)
  rw [map_snd_scored] at h1
  exact h1

theorem match_providers_pairwise (ps : List Provider) (pl sf : Option String) (oa : Bool) :
    (match_providers ps pl sf oa).Pairwise
      (fun a b => codeScore (normLang pl) b ≤ codeScore (normLang pl) a) := by
  have hs := sortS_pairwise scoreLe_trans scoreLe_total
    ((filterCandidates ps sf oa).map (fun p => (codeScore (normLang pl) p, p)))
  have hmem : ∀ x ∈ sortS scoreLe ((filterCandidates ps sf oa).map
      (fun p => (codeScore (normLang pl) p, p))), x.1 = codeScore (normLang pl) x.2 := by
    intro x hx
    have hx' := (sortS_perm _ _).mem_iff.mp hx
    rcases List.mem_map.mp hx' with ⟨q, _, rfl⟩
    rfl
  have hp : (sortS scoreLe ((filterCandidates ps sf oa).map
      (fun p => (codeScore (normLang pl) p, p)))).Pairwise
      (fun x y : ℚ × Provider =>
        codeScore (normLang pl) y.2 ≤ codeScore (normLang pl) x.2) := by
    refine hs.imp_of_mem ?_
    intro x y hx hy hxy
    rw [← hmem x hx, ← hmem y hy]
    simpa [scoreLe] using hxy
  exact List.pairwise_map.mpr hp

theorem match_providers_stable (ps : List Provider) (pl sf : Option String) (oa : Bool)
    {a b : Provider} (h : [a, b].Sublist (filterCandidates ps sf oa))
    (hab : codeScore (normLang pl) b ≤ codeScore (normLang pl) a) :
    [a, b].Sublist (match_providers ps pl sf oa) := by
  have h1 : [(codeScore (normLang pl) a, a), (codeScore (normLang pl) b, b)].Sublist
      ((filterCandidates ps sf oa).map (fun p => (codeScore (normLang pl) p, p))) := by
    simpa using h.map (fun p => (codeScore (normLang pl) p, p))
  have h2 := pair_sublist_sortS scoreLe h1 (by simpa [scoreLe] using hab)
  simpa [match_providers] using h2.map (fun x : ℚ × Provider => x.2)

theorem pairwise_precedesIn {α : Type} {l : List α} {R : α → α → Prop} {x y : α}
    (h : l.Pairwise R) (hxy : ¬ R y x) (hne : x ≠ y) : precedesIn l x y := by
  intro i hi j hj hxi hyj
  have hx : l[i] = x := by
    rw [List.getElem?_eq_getElem hi] at hxi
    exact Option.some_injective _ hxi
  have hy : l[j] = y := by
    rw [List.getElem?_eq_getElem hj] at hyj
    exact Option.some_injective _ hyj
  by_contra hij
  rcases Nat.eq_or_lt_of_le (Nat.le_of_not_lt hij) with heq | hlt
  · subst heq
    exact hne (hx.symm.trans hy)
  · have := List.pairwise_iff_getElem.mp h j i hj hi hlt
    rw [hx, hy] at this
    exact hxy this

theorem codeScore_ge_100 {lang : Option String} {p : Provider}
    (hb : langBonusApplies lang p = true) (h0 : 0 ≤ p.rating) : 100 ≤ codeScore lang p := by
  unfold codeScore
  simp only [hb, if_true]
  by_cases he : p.reviews.isEmpty
  · simp only [he, if_true]
    linarith
  · simp only [he, Bool.false_eq_true, if_false]
    have h1 : (0 : ℚ) ≤ pyMin ((p.reviews.length : ℚ) * (1 / 10)) 1 := by
      unfold pyMin
      split
      · norm_num
      · positivity
    linarith

theorem codeScore_le_6 {lang : Option String} {p : Provider}
    (hb : langBonusApplies lang p = false) (h5 : p.rating ≤ 5) : codeScore lang p ≤ 6 := by
  unfold codeScore
  simp only [hb, Bool.false_eq_true, if_false]
  by_cases he : p.reviews.isEmpty
  · simp only [he, if_true]
    linarith
  · simp only [he, Bool.false_eq_true, if_false]
    have h1 : pyMin ((p.reviews.length : ℚ) * (1 / 10)) 1 ≤ 1 := by
      unfold pyMin
      split
      · norm_num
      · exact le_of_not_lt (by assumption)
    linarith

theorem codeScore_split (lang : Option String) (p : Provider) :
    codeScore lang p = p.rating + (if langBonusApplies lang p then (100 : ℚ) else 0)
      + (if 1 ≤ p.reviews.length then pyMin ((p.reviews.length : ℚ) * (1 / 10)) 1 else 0) := by
  unfold codeScore
  by_cases hb : langBonusApplies lang p <;> by_cases he : p.reviews.isEmpty <;>
    rcases hr : p.reviews with _ | ⟨v, vs⟩ <;>
      simp_all [List.isEmpty_iff]

theorem langBonus_eq (pl : Option String) (p : Provider) :
    (if langBonusApplies (normLang pl) p then (100 : ℚ) else 0) =
      (match pl with
       | none => (0 : ℚ)
       | some l =>
         if pyTitle (pyStrip l) ≠ "" ∧ pyTitle (pyStrip p.language) = pyTitle (pyStrip l)
         then 100 else 0) := by
  rcases pl with _ | s
  · simp [normLang, langBonusApplies]
  · by_cases hs : s = ""
    · subst hs
      have h0 : pyTitle (pyStrip "") = "" := rfl
      simp [normLang, langBonusApplies, h0]
    · by_cases h1 : pyTitle (pyStrip s) = "" <;>
        by_cases h2 : pyTitle (pyStrip p.language) = pyTitle (pyStrip s) <;>
          simp [normLang, langBonusApplies, hs, h1, h2]

theorem codeScore_eq_amendedScore (pl : Option String) (p : Provider) :
    codeScore (normLang pl) p = amendedScore pl p := by
  rw [codeScore_split, langBonus_eq]
  rfl

/-- Claim C2 (amended: the supplied preferred language must normalise to a
non-empty string): among the results of match_providers, a provider whose
normalised language equals the normalised preferred language always appears
strictly before one whose language differs, whenever both ratings lie in
[0, 5]. -/
theorem language_match_ranks_first (ps : List Provider) (L : String) (sf : Option String)
    (oa : Bool) (p q : Provider)
    (hL : pyTitle (pyStrip L) ≠ "")
    (hp : p ∈ match_providers ps (some L) sf oa)
    (hq : q ∈ match_providers ps (some L) sf oa)
    (hpm : pyTitle (pyStrip p.language) = pyTitle (pyStrip L))
    (hqm : pyTitle (pyStrip q.language) ≠ pyTitle (pyStrip L))
    (hp0 : 0 ≤ p.rating) (hp5 : p.rating ≤ 5) (hq0 : 0 ≤ q.rating) (hq5 : q.rating ≤ 5) :
    precedesIn (match_providers ps (some L) sf oa) p q := by
  have hLne : L ≠ "" := by
    intro h
    subst h
    exact hL rfl
  have hlang : normLang (some L) = some (pyTitle (pyStrip L)) := by
    simp [normLang, hLne]
  have hbp : langBonusApplies (normLang (some L)) p = true := by
    rw [hlang]
    simp [langBonusApplies, hpm, hL]
  have hbq : langBonusApplies (normLang (some L)) q = false := by
    rw [hlang]
    simp [langBonusApplies, hqm]
  have hscore : codeScore (normLang (some L)) q < codeScore (normLang (some L)) p :=
    lt_of_le_of_lt (codeScore_le_6 hbq hq5)
      (lt_of_lt_of_le (by norm_num) (codeScore_ge_100 hbp hp0))
  have hne : p ≠ q := by
    intro h
    rw [← h] at hqm
    exact hqm hpm
  exact pairwise_precedesIn (match_providers_pairwise ps (some L) sf oa)
    (not_le.mpr hscore) hne

/-- Witness for C2: with preferred language "french", the rating-0 French
speaker is returned strictly before the rating-5 Spanish speaker. -/
theorem language_match_ranks_first_witness :
    precedesIn (match_providers [pSpanishHigh, pFrenchLow] (some "french") none true)
      pFrenchLow pSpanishHigh :=
  language_match_ranks_first [pSpanishHigh, pFrenchLow] "french" none true
    pFrenchLow pSpanishHigh (by decide) (by decide) (by decide) (by decide) (by decide)
    (by decide) (by decide) (by decide) (by decide)

/-- Counterexample to C2 as stated: with the whitespace-only preferred
language " ", the provider whose language normalises to the same empty
string gets no bonus and is ranked after a non-matching rating-5 provider,
although every hypothesis of the claim holds at this input. -/
theorem language_match_ranks_first_cex :
    pyTitle (pyStrip pBlankLang.language) = pyTitle (pyStrip " ")
    ∧ pyTitle (pyStrip pFrenchTop.language) ≠ pyTitle (pyStrip " ")
    ∧ 0 ≤ pBlankLang.rating ∧ pBlankLang.rating ≤ 5
    ∧ 0 ≤ pFrenchTop.rating ∧ pFrenchTop.rating ≤ 5
    ∧ pBlankLang ∈ match_providers [pBlankLang, pFrenchTop] (some " ") none true
    ∧ pFrenchTop ∈ match_providers [pBlankLang, pFrenchTop] (some " ") none true
    ∧ ¬ precedesIn (match_providers [pBlankLang, pFrenchTop] (some " ") none true)
        pBlankLang pFrenchTop := by
  decide

/-- Claim C3 (amended: the 100-point bonus applies exactly when the
normalised preferred language is non-empty and equal to the provider's
normalised language): match_providers returns a permutation of the filtered
candidates, ordered by non-increasing score, with equal-score candidates
keeping their encounter order. -/
theorem match_providers_score_spec (ps : List Provider) (pl sf : Option String) (oa : Bool) :
    (match_providers ps pl sf oa).Perm (filterCandidates ps sf oa)
    ∧ (match_providers ps pl sf oa).Pairwise
        (fun a b => amendedScore pl b ≤ amendedScore pl a)
    ∧ ∀ a b : Provider, [a, b].Sublist (filterCandidates ps sf oa) →
        amendedScore pl a = amendedScore pl b →
        [a, b].Sublist (match_providers ps pl sf oa) := by
  refine ⟨match_providers_perm ps pl sf oa, ?_, ?_⟩
  · refine (match_providers_pairwise ps pl sf oa).imp ?_
    intro a b hab
    rw [← codeScore_eq_amendedScore, ← codeScore_eq_amendedScore]
    exact hab
  · intro a b hsub heq
    refine match_providers_stable ps pl sf oa hsub ?_
    rw [codeScore_eq_amendedScore, codeScore_eq_amendedScore, heq]

/-- Witness for C3: two equal-score providers keep their encounter order. -/
theorem match_providers_score_spec_witness :
    [pFrenchLow, pSpanishLow].Sublist (match_providers [pFrenchLow, pSpanishLow] none none true) := by
  refine (match_providers_score_spec [pFrenchLow, pSpanishLow] none none true).2.2
    pFrenchLow pSpanishLow ?_ (by decide)
  have h : filterCandidates [pFrenchLow, pSpanishLow] none true = [pFrenchLow, pSpanishLow] := by
    decide
  rw [h]

/-- Counterexample to C3 as stated: with preferred language " ", the claimed
score formula gives the blank-language provider 100 extra points, yet the
code ranks it below a provider with a strictly smaller claimed score, so the
returned list is not ordered by the claimed score. -/
theorem match_providers_score_spec_cex :
    match_providers [pBlankLang, pFrenchTop] (some " ") none true = [pFrenchTop, pBlankLang]
    ∧ claimScore (some " ") pFrenchTop < claimScore (some " ") pBlankLang := by
  decide

/-- Claim C4: every provider returned by match_providers passes the requested
service-substring filter and, when required, the availability filter. -/
theorem match_providers_respects_filters (ps : List Provider) (pl sf : Option String)
    (oa : Bool) (p : Provider) (hp : p ∈ match_providers ps pl sf oa) :
    (∀ s, sf = some s → containsSub (pyLower s) (pyLower p.service) = true)
    ∧ (oa = true → p.available = true) := by
  have hc : p ∈ filterCandidates ps sf oa := (match_providers_perm ps pl sf oa).mem_iff.mp hp
  unfold filterCandidates at hc
  rcases oa with _ | _
  · simp only [Bool.false_eq_true, if_false] at hc
    rcases List.mem_filter.mp hc with ⟨_, hsf⟩
    refine ⟨?_, by intro h; cases h⟩
    intro s hs
    rw [hs] at hsf
    exact hsf
  · simp only [if_true] at hc
    rcases List.mem_filter.mp hc with ⟨hc1, hav⟩
    rcases List.mem_filter.mp hc1 with ⟨_, hsf⟩
    refine ⟨?_, fun _ => hav⟩
    intro s hs
    rw [hs] at hsf
    exact hsf

/-- Witness for C4: the only returned provider indeed passes both filters. -/
theorem match_providers_respects_filters_witness :
    containsSub (pyLower "ax") (pyLower pr1.service) = true ∧ pr1.available = true := by
  have h := match_providers_respects_filters [pr1] none (some "ax") true pr1 (by decide)
  exact ⟨h.1 "ax" rfl, h.2 rfl⟩

/-! ## Translation (C5) -/

set_option maxHeartbeats 4000000 in
/-- Claim C5: translate_phrase has exactly the three outcomes — translation
plus matched key, no translation but a matched key, or neither — and on the
three sample inputs behaves as the specification states. -/
theorem translate_phrase_outcomes :
    (∀ phrase target : String,
      (fuzzy_match_phrase phrase = none ∧ translate_phrase phrase target = (none, none))
      ∨ (∃ k, fuzzy_match_phrase phrase = some k ∧
          ((∃ t, lookupBy (phrasebookGetD k) (pyTitle (pyStrip target)) = some t ∧
              translate_phrase phrase target = (some t, some k))
           ∨ (lookupBy (phrasebookGetD k) (pyTitle (pyStrip target)) = none ∧
              translate_phrase phrase target = (none, some k)))))
    ∧ translate_phrase "hello" "French" = (some "Bonjour", some "hello")
    ∧ translate_phrase "hello" "Klingon" = (none, some "hello")
    ∧ translate_phrase "xyzzy" "French" = (none, none) := by
  refine ⟨?_, by decide, by decide, by decide⟩
  intro phrase target
  cases hf : fuzzy_match_phrase phrase with
  | none => exact Or.inl ⟨rfl, by simp [translate_phrase, hf]⟩
  | some k =>
    refine Or.inr ⟨k, rfl, ?_⟩
    cases hl : lookupBy (phrasebookGetD k) (pyTitle (pyStrip target)) with
    | none => exact Or.inr ⟨rfl, by simp [translate_phrase, hf, hl]⟩
    | some t => exact Or.inl ⟨t, rfl, by simp [translate_phrase, hf, hl]⟩

/-! ## Reviews (C1) -/

theorem addReviewList_append (pid : String) (r : ℚ) (c : String) (ts : Nat) :
    ∀ (l₁ : List Provider) (p : Provider) (l₂ : List Provider),
      (∀ q ∈ l₁, q.id ≠ pid) → p.id = pid →
      addReviewList pid r c ts (l₁ ++ p :: l₂) =
        some (l₁ ++ reviewedProvider p r c ts :: l₂, (reviewedProvider p r c ts).rating) := by
  intro l₁
  induction l₁ with
  | nil =>
    intro p l₂ _ hp
    simp [addReviewList, hp]
  | cons q l₁ ih =>
    intro p l₂ hq hp
    have hq1 : q.id ≠ pid := hq q (List.mem_cons_self q l₁)
    simp only [List.cons_append, addReviewList, List.append_eq]
    rw [if_neg hq1, ih p l₂ (fun x hx => hq x (List.mem_cons_of_mem q hx)) hp]

/-- Claim C1 (amended: the rating invariant holds for the reviewed provider;
untouched providers with empty review lists simply keep their current seed
ratings, which are not a single shared constant): after add_review on an id
present in the store, the first matching provider carries the appended
review, its rating is the two-decimal-rounded mean of all its reviews, that
value is returned, and the store is persisted. -/
theorem add_review_updates_mean (s : AppState) (pid : String) (r : ℚ) (c : String) (ts : Nat)
    (l₁ : List Provider) (p : Provider) (l₂ : List Provider)
    (hdec : s.providers = l₁ ++ p :: l₂)
    (hfirst : ∀ q ∈ l₁, q.id ≠ pid) (hpid : p.id = pid) :
    (add_review s pid r c ts).1.providers = l₁ ++ reviewedProvider p r c ts :: l₂
    ∧ (reviewedProvider p r c ts).rating =
        round2 ((((reviewedProvider p r c ts).reviews).map Review.rating).sum /
          (((reviewedProvider p r c ts).reviews).length : ℚ))
    ∧ (add_review s pid r c ts).2 = some ((reviewedProvider p r c ts).rating)
    ∧ (add_review s pid r c ts).1.providersFile = (add_review s pid r c ts).1.providers := by
  unfold add_review
  rw [hdec, addReviewList_append pid r c ts l₁ p l₂ hfirst hpid]
  exact ⟨rfl, rfl, rfl, rfl⟩

/-- Witness for C1: reviewing provider p1 with a single 5-star review sets
and returns rating 5 (the rounded mean of its one review). -/
theorem add_review_updates_mean_witness :
    (add_review initialState "p1" 5 "great" 0).2 = some 5 := by
  have h := add_review_updates_mean initialState "p1" 5 "great" 0 [] pr1 [pr2, pr3] rfl
    (by simp) rfl
  rw [h.2.2.1]
  decide

/-- Counterexample to C1 as stated: after an add_review call, the providers
with empty review lists do not share one default rating constant — in the
seeded store p1 keeps 4.8 and p2 keeps 4.9. -/
theorem add_review_no_default_constant :
    ¬ ∃ y : ℚ, ∀ p ∈ ((add_review initialState "p3" 5 "x" 0).1).providers,
        p.reviews = [] → p.rating = y := by
  intro h
  obtain ⟨y, hy⟩ := h
  have hps : ((add_review initialState "p3" 5 "x" 0).1).providers =
      [pr1, pr2] ++ reviewedProvider pr3 5 "x" 0 :: [] := by
    unfold add_review
    rw [show initialState.providers = [pr1, pr2] ++ pr3 :: [] from rfl,
      addReviewList_append "p3" 5 "x" 0 [pr1, pr2] pr3 [] (by decide) rfl]
  have h1 : pr1.rating = y := hy pr1 (by rw [hps]; simp) rfl
  have h2 : pr2.rating = y := hy pr2 (by rw [hps]; simp) rfl
  rw [← h2] at h1
  exact absurd h1 (by decide)

/-! ## Availability updates (C6, C7) -/

theorem updateList_none (pid : String) (av : Bool) (na : Option Nat) :
    ∀ l : List Provider, (∀ q ∈ l, q.id ≠ pid) → updateList pid av na l = none := by
  intro l
  induction l with
  | nil => intro _; rfl
  | cons p rest ih =>
    intro h
    have hp : p.id ≠ pid := h p (List.mem_cons_self p rest)
    simp only [updateList]
    rw [if_neg hp, ih (fun q hq => h q (List.mem_cons_of_mem p hq))]

theorem updateList_append (pid : String) (av : Bool) (na : Option Nat) :
    ∀ (l₁ : List Provider) (p : Provider) (l₂ : List Provider),
      (∀ q ∈ l₁, q.id ≠ pid) → p.id = pid →
      updateList pid av na (l₁ ++ p :: l₂) =
        some (l₁ ++ { p with available := av, next_available := na } :: l₂) := by
  intro l₁
  induction l₁ with
  | nil =>
    intro p l₂ _ hp
    simp [updateList, hp]
  | cons q l₁ ih =>
    intro p l₂ hq hp
    have hq1 : q.id ≠ pid := hq q (List.mem_cons_self q l₁)
    simp only [List.cons_append, updateList, List.append_eq]
    rw [if_neg hq1, ih p l₂ (fun x hx => hq x (List.mem_cons_of_mem q hx)) hp]

theorem update_provider_availability_present (s : AppState) (pid : String) (av : Bool)
    (na : Option Nat) (l₁ : List Provider) (p : Provider) (l₂ : List Provider)
    (hdec : s.providers = l₁ ++ p :: l₂) (hfirst : ∀ q ∈ l₁, q.id ≠ pid)
    (hp : p.id = pid) :
    update_provider_availability s pid av na =
      ({ s with
          providers := l₁ ++ { p with available := av, next_available := na } :: l₂,
          providersFile := l₁ ++ { p with available := av, next_available := na } :: l₂ },
       true) := by
  unfold update_provider_availability
  rw [hdec, updateList_append pid av na l₁ p l₂ hfirst hp]

/-- Claim C7: on an absent id update_provider_availability returns false and
changes nothing, neither in memory nor in the persisted file; on a present id
it mutates the first matching provider's two fields in place, persists the
provider store, and returns true. -/
theorem update_provider_availability_spec (s : AppState) (pid : String) (av : Bool)
    (na : Option Nat) :
    ((∀ q ∈ s.providers, q.id ≠ pid) →
      update_provider_availability s pid av na = (s, false))
    ∧ (∀ (l₁ : List Provider) (p : Provider) (l₂ : List Provider),
        s.providers = l₁ ++ p :: l₂ → (∀ q ∈ l₁, q.id ≠ pid) → p.id = pid →
        (update_provider_availability s pid av na).2 = true
        ∧ (update_provider_availability s pid av na).1.providers =
            l₁ ++ { p with available := av, next_available := na } :: l₂
        ∧ (update_provider_availability s pid av na).1.providersFile =
            (update_provider_availability s pid av na).1.providers
        ∧ (update_provider_availability s pid av na).1.bookings = s.bookings
        ∧ (update_provider_availability s pid av na).1.bookingsFile = s.bookingsFile) := by
  constructor
  · intro h
    unfold update_provider_availability
    rw [updateList_none pid av na s.providers h]
  · intro l₁ p l₂ hdec hfirst hp
    rw [update_provider_availability_present s pid av na l₁ p l₂ hdec hfirst hp]
    exact ⟨rfl, rfl, rfl, rfl, rfl⟩

/-- Witness for C7: an unknown id leaves the seeded state untouched and
returns false; the known id p2 returns true. -/
theorem update_provider_availability_spec_witness :
    update_provider_availability initialState "zzz" false none = (initialState, false)
    ∧ (update_provider_availability initialState "p2" false (some 9)).2 = true := by
  constructor
  · exact (update_provider_availability_spec initialState "zzz" false none).1 (by decide)
  · exact ((update_provider_availability_spec initialState "p2" false (some 9)).2
      [pr1] pr2 [pr3] rfl (by decide) rfl).1

/-- Claim C6: the admin availability toggle on the provider at a given
position sets next_available to the call time plus one hour — strictly after
the call time — when the provider becomes unavailable, and clears it when
the provider becomes available again. -/
theorem admin_toggle_next_available (s : AppState) (now : Nat)
    (l₁ : List Provider) (p : Provider) (l₂ : List Provider)
    (hdec : s.providers = l₁ ++ p :: l₂)
    (hfirst : ∀ q ∈ l₁, q.id ≠ p.id) :
    (p.available = true →
      (adminToggleAvailability s l₁.length now).providers =
        l₁ ++ { p with available := false, next_available := some (now + 3600) } :: l₂
      ∧ now < now + 3600)
    ∧ (p.available = false →
      (adminToggleAvailability s l₁.length now).providers =
        l₁ ++ { p with available := true, next_available := none } :: l₂) := by
  have hget : s.providers[l₁.length]? = some p := by
    rw [hdec, List.getElem?_append_right (le_refl l₁.length)]
    simp
  constructor
  · intro hav
    constructor
    · have h2 : (update_provider_availability s p.id false (some (now + 3600))).1.providers =
          l₁ ++ { p with available := false, next_available := some (now + 3600) } :: l₂ := by
        rw [update_provider_availability_present s p.id false (some (now + 3600))
          l₁ p l₂ hdec hfirst rfl]
      unfold adminToggleAvailability
      rw [hget]
      simpa [hav] using h2
    · omega
  · intro hav
    have h2 : (update_provider_availability s p.id true none).1.providers =
        l₁ ++ { p with available := true, next_available := none } :: l₂ := by
      rw [update_provider_availability_present s p.id true none l₁ p l₂ hdec hfirst rfl]
    unfold adminToggleAvailability
    rw [hget]
    simpa [hav] using h2

/-- Witness for C6: toggling the available seeded provider p1 at time 7
schedules it until 3607, strictly after 7. -/
theorem admin_toggle_next_available_witness :
    (adminToggleAvailability initialState 0 7).providers =
      [{ pr1 with available := false, next_available := some 3607 }, pr2, pr3]
    ∧ (7 : Nat) < 3607 := by
  have h := (admin_toggle_next_available initialState 7 [] pr1 [pr2, pr3] rfl (by simp)).1 rfl
  exact ⟨h.1, h.2⟩

/-! ## Language detection (C8) -/

theorem mapLangCode_mem (code : String) :
    mapLangCode code = none
    ∨ mapLangCode code ∈ [some "French", some "Spanish", some "Telugu", some "English"] := by
  unfold mapLangCode
  split_ifs <;> simp

/-- Claim C8: detect_language is total and always yields one of the four
labels or the unknown result (None), and each failure path yields None
rather than a label or a thrown error: empty input (on either path), a
detector error on the primary path, a detector code outside fr/es/te/en on
the primary path, and a no-keyword-match on the heuristic fallback path. -/
theorem detect_language_closed_set :
    (∀ (avail : Bool) (detector : String → Except Unit String) (text : String),
      detect_language avail detector text = none
      ∨ detect_language avail detector text ∈
          [some "French", some "Spanish", some "Telugu", some "English"])
    ∧ (∀ (avail : Bool) (detector : String → Except Unit String) (text : String),
        pyStrip text = "" → detect_language avail detector text = none)
    ∧ (∀ (detector : String → Except Unit String) (text : String) (e : Unit),
        detector (pyStrip text) = Except.error e →
        detect_language true detector text = none)
    ∧ (∀ (detector : String → Except Unit String) (text : String) (code : String),
        detector (pyStrip text) = Except.ok code →
        code ≠ "fr" → code ≠ "es" → code ≠ "te" → code ≠ "en" →
        detect_language true detector text = none)
    ∧ (∀ (detector : String → Except Unit String) (text : String),
        frenchMarkers.any (fun w => containsSub w (pyLower (pyStrip text))) = false →
        spanishMarkers.any (fun w => containsSub w (pyLower (pyStrip text))) = false →
        teluguMarkers.any (fun w => containsSub w (pyLower (pyStrip text))) = false →
        detect_language false detector text = none) := by
  refine ⟨?_, ?_, ?_, ?_, ?_⟩
  · intro avail detector text
    by_cases h0 : pyStrip text = ""
    · exact Or.inl (by simp [detect_language, h0])
    · cases havail : avail
      · by_cases hf :
          frenchMarkers.any (fun w => containsSub w (pyLower (pyStrip text))) = true
        · right
          simp [detect_language, h0, hf]
        · by_cases hs :
            spanishMarkers.any (fun w => containsSub w (pyLower (pyStrip text))) = true
          · right
            simp [detect_language, h0, hf, hs]
          · by_cases ht :
              teluguMarkers.any (fun w => containsSub w (pyLower (pyStrip text))) = true
            · right
              simp [detect_language, h0, hf, hs, ht]
            · left
              simp [detect_language, h0, hf, hs, ht]
      · cases hdet : detector (pyStrip text) with
        | ok code =>
          have : detect_language true detector text = mapLangCode code := by
            simp [detect_language, h0, hdet]
          rw [this]
          exact mapLangCode_mem code
        | error e =>
          left
          simp [detect_language, h0, hdet]
  · intro avail detector text h0
    simp [detect_language, h0]
  · intro detector text e herr
    by_cases h0 : pyStrip text = ""
    · simp [detect_language, h0]
    · simp [detect_language, h0, herr]
  · intro detector text code hok h1 h2 h3 h4
    by_cases h0 : pyStrip text = ""
    · simp [detect_language, h0]
    · simp [detect_language, h0, hok, mapLangCode, h1, h2, h3, h4]
  · intro detector text hf hs ht
    by_cases h0 : pyStrip text = ""
    · simp [detect_language, h0]
    · simp [detect_language, h0, hf, hs, ht]

/-- Witness for C8: concrete runs of each failure path — whitespace-only
input with a working detector, a detector error on text that even contains a
French marker, the unrecognised code "de", and a heuristic miss — all
return None. -/
theorem detect_language_closed_set_witness :
    detect_language true (fun _ => Except.ok "fr") "   " = none
    ∧ detect_language true (fun _ => Except.error ()) "bonjour" = none
    ∧ detect_language true (fun _ => Except.ok "de") "hello" = none
    ∧ detect_language false (fun _ => Except.ok "fr") "zzz" = none :=
  ⟨detect_language_closed_set.2.1 true (fun _ => Except.ok "fr") "   " (by decide),
   detect_language_closed_set.2.2.1 (fun _ => Except.error ()) "bonjour" () rfl,
   detect_language_closed_set.2.2.2.1 (fun _ => Except.ok "de") "hello" "de" rfl
     (by decide) (by decide) (by decide) (by decide),
   detect_language_closed_set.2.2.2.2 (fun _ => Except.ok "fr") "zzz"
     (by decide) (by decide) (by decide)⟩

/-! ## Storage round trip (C9) -/

theorem decodeFieldsList_map (ps : List Provider) :
    decodeFieldsList (ps.map providerToJson) =
      some (ps.map (fun p => (p.id, p.name, p.rating, p.available))) := by
  induction ps with
  | nil => rfl
  | cons p ps ih =>
    have hp : providerFields (providerToJson p) = some (p.id, p.name, p.rating, p.available) :=
      rfl
    simp only [List.map_cons, decodeFieldsList, hp, ih]

/-- Claim C9: saving any provider list with save_json and loading it back
with load_json reproduces every provider's id, name, rating and availability
flag, in order. -/
theorem providers_roundtrip (file : Option Json) (ps : List Provider) :
    decodeProviders (load_json (save_json file (providersToJson ps)) (Json.arr [])) =
      some (ps.map (fun p => (p.id, p.name, p.rating, p.available))) := by
  show decodeFieldsList (ps.map providerToJson) = _
  exact decodeFieldsList_map ps

/-! ## Booking creation frame (C10) -/

/-- Claim C10: create_booking appends exactly one booking record (which
denormalises the provider's id, name and service), persists the booking
store, and leaves the provider list and its persisted file untouched. -/
theorem create_booking_frame (s : AppState) (tourist : String) (provider : Provider)
    (language phone : Option String) (newId : String) (now : Nat) :
    (create_booking s tourist provider language phone newId now).1.providers = s.providers
    ∧ (create_booking s tourist provider language phone newId now).1.providersFile
        = s.providersFile
    ∧ (create_booking s tourist provider language phone newId now).1.bookings =
        s.bookings ++ [(create_booking s tourist provider language phone newId now).2]
    ∧ (create_booking s tourist provider language phone newId now).1.bookings.length =
        s.bookings.length + 1
    ∧ (create_booking s tourist provider language phone newId now).1.bookingsFile =
        (create_booking s tourist provider language phone newId now).1.bookings
    ∧ (create_booking s tourist provider language phone newId now).2.provider_id = provider.id
    ∧ (create_booking s tourist provider language phone newId now).2.provider_name
        = provider.name
    ∧ (create_booking s tourist provider language phone newId now).2.service
        = provider.service :=
  ⟨rfl, rfl, rfl, by simp [create_booking], rfl, rfl, rfl, rfl⟩

end SmartApp
